import Mathlib

/-!
# permd: a permission-enforcing daemon

A shallow embedding of `permd.go`.  The program's own functions (`checkMode`,
`getWalker`, `watchDir`, the event loop inside `watchDir`, and `main`) are
translated statement by statement.  The operating system, `path/filepath` and
`fsnotify` are collaborators: they are modelled by a `World` that holds a table
of file-system entries, the running event processors, and the trace of every
log line and system call issued so far.  An entry names an inode: hard links
are entries with the same inode number, and a symbolic link carries the path
it points to, which `os.Stat` and `os.Chmod` follow and `os.Lstat` does not.
-/

namespace Permd

/-! ## os.FileMode -/

/-- Go `os.FileMode`: an unsigned 32-bit word. -/
abbrev FileMode := Nat

/-- Bit `d`: the entry is a directory. -/
def ModeDir : FileMode := 2 ^ 31
/-- Bit `u`: setuid. -/
def ModeSetuid : FileMode := 2 ^ 23
/-- Bit `g`: setgid. -/
def ModeSetgid : FileMode := 2 ^ 22
/-- Bit `t`: sticky. -/
def ModeSticky : FileMode := 2 ^ 20
/-- Bit `L`: the entry is a symbolic link. -/
def ModeSymlink : FileMode := 2 ^ 27
/-- The nine Unix permission bits. -/
def ModePerm : FileMode := 0o777

/-- Go `FileMode.Perm`: the Unix permission bits of `m`. -/
def Perm (m : FileMode) : FileMode := m &&& ModePerm

/-- The bits of a mode that `os.Chmod` hands to the kernel
(`syscallMode`): permission bits, setuid, setgid and sticky. -/
def chmodBits : FileMode := ModePerm ||| ModeSetuid ||| ModeSetgid ||| ModeSticky

/-- The mode of an entry after a successful `os.Chmod` with argument `mode`:
the bits `chmod` controls come from `mode`, the other bits (the file type)
stay. -/
def setMode (old mode : FileMode) : FileMode :=
  (old &&& (0xFFFFFFFF ^^^ chmodBits)) ||| (mode &&& chmodBits)

/-- Conversion `os.FileMode(n)` of a Go `int`: truncation to 32 bits. -/
def toFileMode (n : Int) : FileMode := (n % 2 ^ 32).toNat

/-! ## Data model -/

/-- Go `error` values that occur in the model. `SkipDir` is
`filepath.SkipDir`. -/
inductive Err where
  | ENOENT
  | EACCES
  | EPERM
  | EMFILE
  | ELOOP
  | SkipDir
  deriving DecidableEq, Repr

/-- The two methods of `os.FileInfo` that the program calls. -/
structure FileInfo where
  IsDir : Bool
  Mode : FileMode
  deriving DecidableEq, Repr

/-- The policy: `type Config struct`. -/
structure Config where
  DirectoryMode : FileMode
  FileMode : FileMode
  deriving DecidableEq, Repr

/-- The lines the program writes with `log.Printf` / `log.Println`, one
constructor per call site. -/
inductive LogLine where
  /-- Line 24: "%s has permissions %s, changing to %s". -/
  | changing (path : String) (mode target : FileMode)
  /-- Line 39: "Error starting watcher on %s: %s". -/
  | errStartingWatcher (path : String) (err : Err)
  /-- Line 44: "Error fixing permissions for %s: %s". -/
  | errFixing (path : String) (err : Err)
  /-- Line 52: "Watching directory". -/
  | watching (path : String)
  /-- Line 66: "Error calling stat() on %s: %s". -/
  | errStat (path : String) (err : Err)
  /-- Line 73: "Error starting a watcher on %s" (only the error is printed). -/
  | errStartingAWatcher (err : Err)
  /-- Lines 77 and 85: "Could not fix permissions for %s: %s". -/
  | couldNotFix (path : String) (err : Err)
  /-- Line 90: "Watcher err: %s". -/
  | watcherErr (err : Err)
  deriving DecidableEq, Repr

/-- Everything the program does to the outside world, in the order it does
it. -/
inductive Effect where
  | log (l : LogLine)
  /-- Call of `os.Stat`. -/
  | stat (path : String)
  /-- Call of `os.Lstat` (inside `filepath.Walk`). -/
  | lstat (path : String)
  /-- Listing of a directory (inside `filepath.Walk`). -/
  | readDir (path : String)
  /-- Call of `os.Chmod path mode`. -/
  | chmod (path : String) (mode : FileMode)
  /-- Call of `fsnotify.NewWatcher`. -/
  | newWatcher
  /-- The `go func()` statement of `watchDir path`: an event processor
  starts. -/
  | spawn (path : String)
  /-- Call of `watcher.Watch path`. -/
  | watch (path : String)
  deriving DecidableEq, Repr

/-- One entry of the file system: a path and the inode it names. -/
structure Entry where
  /-- What `lstat` reports. Names of the same inode report the same. -/
  info : FileInfo
  /-- The inode number. Two paths with the same number are hard links to
  one file and share its mode. -/
  ino : Nat
  /-- For a symbolic link, the path it points to. -/
  symlink : Option String
  /-- The names in the directory, as listed. -/
  names : List String
  /-- Fault reported when the directory is listed. -/
  readErr : Option Err
  /-- Fault reported by `chmod` on this entry. -/
  chmodErr : Option Err
  /-- Fault reported when a watcher is bound to this entry. -/
  watchErr : Option Err
  deriving DecidableEq, Repr

/-- The state of the outside world. -/
structure World where
  /-- The file system: path to entry. A path with no entry does not exist. -/
  fs : List (String × Entry)
  /-- How many watchers the system lets the process create. -/
  watcherLimit : Nat
  /-- The directories of the running event processors, one item per
  processor. -/
  watchers : List String
  /-- The effects so far, oldest first. -/
  trace : List Effect
  deriving DecidableEq, Repr

/-- The result of a computation that may dereference nil or exhaust the
recursion budget of the model. -/
inductive Outcome where
  /-- Normal return with the returned `error` (`none` is nil). -/
  | ok (err : Option Err) (w : World)
  /-- Run-time panic: the process dies in state `w`. -/
  | panic (w : World)
  /-- The recursion budget of the model ran out. -/
  | timeout
  deriving DecidableEq, Repr

/-- Go `filepath.WalkFunc`: path, info (nil when stat failed), incoming
error. -/
abbrev WalkFunc := String → Option FileInfo → Option Err → World → Outcome

/-- What an event processor receives from its watcher. -/
inductive Msg where
  /-- Value on `watcher.Event`: the file name and whether `IsCreate`. -/
  | event (name : String) (isCreate : Bool)
  /-- Value on `watcher.Error`. -/
  | error (err : Err)
  deriving DecidableEq, Repr

/-! ## The collaborators -/

/-- Append an effect to the trace. -/
def World.emit (w : World) (e : Effect) : World :=
  { w with trace := w.trace ++ [e] }

/-- Apply `f` to every entry that names inode `ino`. -/
def updateInode (ino : Nat) (f : Entry → Entry) :
    List (String × Entry) → List (String × Entry)
  | [] => []
  | (k, e) :: rest =>
    if e.ino = ino then (k, f e) :: updateInode ino f rest
    else (k, e) :: updateInode ino f rest

/-- How many symbolic links a path resolution follows before it gives up
with ELOOP. -/
def maxSymlinks : Nat := 40

/-- Resolution of a path as `stat` and `chmod` do it: symbolic links are
followed, at most as many as the first argument, to the entry they end at. -/
def follow : Nat → List (String × Entry) → String → Err ⊕ Entry
  | 0, _, _ => .inl .ELOOP
  | n + 1, fs, path =>
    match fs.lookup path with
    | none => .inl .ENOENT
    | some e =>
      match e.symlink with
      | none => .inr e
      | some target => follow n fs target

/-- The entry after a successful `chmod` to `mode`. -/
def chmodEntry (mode : FileMode) (e : Entry) : Entry :=
  { e with info := ⟨e.info.IsDir, setMode e.info.Mode mode⟩ }

/-- Call of `os.Stat`: symbolic links are followed. -/
def Stat (path : String) (w : World) : (Err ⊕ FileInfo) × World :=
  let w1 := w.emit (.stat path)
  match follow maxSymlinks w1.fs path with
  | .inr e => (.inr e.info, w1)
  | .inl err => (.inl err, w1)

/-- Call of `os.Lstat`: a symbolic link is reported itself. -/
def Lstat (path : String) (w : World) : (Err ⊕ FileInfo) × World :=
  let w1 := w.emit (.lstat path)
  match w1.fs.lookup path with
  | some e => (.inr e.info, w1)
  | none => (.inl .ENOENT, w1)

/-- Listing of the names in a directory. The walk lists only paths that
`Lstat` reported as directories. -/
def readDirNames (path : String) (w : World) : (Err ⊕ List String) × World :=
  let w1 := w.emit (.readDir path)
  match w1.fs.lookup path with
  | some e =>
    match e.readErr with
    | some err => (.inl err, w1)
    | none => (.inr e.names, w1)
  | none => (.inl .ENOENT, w1)

/-- Call of `os.Chmod`: symbolic links are followed and the mode of the
inode the path ends at is set, under every name of that inode. -/
def Chmod (path : String) (mode : FileMode) (w : World) : Option Err × World :=
  let w1 := w.emit (.chmod path mode)
  match follow maxSymlinks w1.fs path with
  | .inl err => (some err, w1)
  | .inr e =>
    match e.chmodErr with
    | some err => (some err, w1)
    | none =>
      (none, { w1 with fs := updateInode e.ino (chmodEntry mode) w1.fs })

/-- Call of `fsnotify.NewWatcher`. -/
def NewWatcher (w : World) : Option Err × World :=
  let w1 := w.emit .newWatcher
  if w1.watchers.length < w1.watcherLimit then (none, w1) else (some .EMFILE, w1)

/-- Call of `watcher.Watch`: symbolic links are followed. -/
def Watch (path : String) (w : World) : Option Err × World :=
  let w1 := w.emit (.watch path)
  match follow maxSymlinks w1.fs path with
  | .inl err => (some err, w1)
  | .inr e => (e.watchErr, w1)

/-- The `go func()` statement: one more event processor runs. -/
def spawnProcessor (path : String) (w : World) : World :=
  { w.emit (.spawn path) with watchers := w.watchers ++ [path] }

/-- Go `filepath.Join` of a directory path and an entry name. -/
def Join (dir name : String) : String := dir ++ "/" ++ name

/-! ## permd.go -/

/-- Lines 18-32. -/
def checkMode (path : String) (info : FileInfo) (config : Config) (w : World) :
    Option Err × World :=
  let targetMode := if info.IsDir then config.DirectoryMode else config.FileMode
  if Perm info.Mode ≠ targetMode then
    let w1 := w.emit (.log (.changing path info.Mode targetMode))
    match Chmod path targetMode w1 with
    | (some err, w2) => (some err, w2)
    | (none, w2) => (none, w2)
  else
    (none, w)

/-- Lines 51-97, without the body of the goroutine (that is `handleMsg`). -/
def watchDir (path : String) (_config : Config) (w : World) : Option Err × World :=
  let w1 := w.emit (.log (.watching path))
  match NewWatcher w1 with
  | (some err, w2) => (some err, w2)
  | (none, w2) =>
    let w3 := spawnProcessor path w2
    let w4 := (Watch path w3).2
    (none, w4)

/-- The idiom `if err != nil { log.Printf(...) }` after a call that
returned `r`: the line is written when the returned error is not nil. -/
def logErr (line : Err → LogLine) (r : Option Err × World) : World :=
  match r with
  | (some err, w) => w.emit (.log (line err))
  | (none, w) => w

/-- Lines 34-49. Calling `info.IsDir()` on a nil `os.FileInfo` panics. -/
def getWalker (config : Config) : WalkFunc := fun path info _err w =>
  match info with
  | none => .panic w
  | some info =>
    let w1 :=
      if info.IsDir then
        logErr (.errStartingWatcher path) (watchDir path config w)
      else w
    let w2 := logErr (.errFixing path) (checkMode path info config w1)
    .ok none w2

/-- The loop over the names of a directory in `filepath.walk`; `walkRec` is
the recursive call. -/
def walkNames (walkRec : String → FileInfo → World → Outcome) (walkFn : WalkFunc)
    (path : String) : List String → World → Outcome
  | [], w => .ok none w
  | name :: rest, w =>
    let filename := Join path name
    match Lstat filename w with
    | (.inl err, w1) =>
      match walkFn filename none (some err) w1 with
      | .ok (some e) w2 =>
        if e ≠ Err.SkipDir then .ok (some e) w2
        else walkNames walkRec walkFn path rest w2
      | .ok none w2 => walkNames walkRec walkFn path rest w2
      | .panic w2 => .panic w2
      | .timeout => .timeout
    | (.inr fileInfo, w1) =>
      match walkRec filename fileInfo w1 with
      | .ok (some e) w2 =>
        if !fileInfo.IsDir || e ≠ Err.SkipDir then .ok (some e) w2
        else walkNames walkRec walkFn path rest w2
      | .ok none w2 => walkNames walkRec walkFn path rest w2
      | .panic w2 => .panic w2
      | .timeout => .timeout

/-- Go `filepath.walk`, in the form that calls the callback on a directory
before it lists the directory, and again with the error when the listing
fails. The first argument bounds the depth of the recursion. -/
def walk (walkFn : WalkFunc) : Nat → String → FileInfo → World → Outcome
  | 0, _, _, _ => .timeout
  | fuel + 1, path, info, w =>
    match walkFn path (some info) none w with
    | .ok (some e) w1 =>
      if info.IsDir && e = Err.SkipDir then .ok none w1 else .ok (some e) w1
    | .ok none w1 =>
      if !info.IsDir then .ok none w1
      else
        match readDirNames path w1 with
        | (.inl err, w2) => walkFn path (some info) (some err) w2
        | (.inr names, w2) => walkNames (walk walkFn fuel) walkFn path names w2
    | .panic w1 => .panic w1
    | .timeout => .timeout

/-- Go `filepath.Walk`. -/
def Walk (fuel : Nat) (root : String) (walkFn : WalkFunc) (w : World) : Outcome :=
  match Lstat root w with
  | (.inl err, w1) => walkFn root none (some err) w1
  | (.inr info, w1) => walk walkFn fuel root info w1

/-- Lines 62-91: what the event processor started by `watchDir` does with
one received message. -/
def handleMsg (fuel : Nat) (config : Config) : Msg → World → Outcome
  | .event name isCreate, w =>
    if isCreate then
      match Stat name w with
      | (.inl err, w1) => .ok none (w1.emit (.log (.errStat name err)))
      | (.inr info, w1) =>
        if info.IsDir then
          let w2 := logErr .errStartingAWatcher (watchDir name config w1)
          let w3 := logErr (.couldNotFix name) (checkMode name info config w2)
          match Walk fuel name (getWalker config) w3 with
          | .ok _ w4 => .ok none w4
          | .panic w4 => .panic w4
          | .timeout => .timeout
        else
          let w2 := logErr (.couldNotFix name) (checkMode name info config w1)
          .ok none w2
    else .ok none w
  | .error err, w => .ok none (w.emit (.log (.watcherErr err)))

/-- Lines 116-124: the policy `main` builds from the parsed flags. -/
def mainConfig (dirMode fileMode : Int) (setGid setUid : Bool) : Config :=
  let config : Config := ⟨toFileMode dirMode, toFileMode fileMode⟩
  let config :=
    if setGid then
      let config := { config with DirectoryMode := config.DirectoryMode ||| ModeSetgid }
      { config with FileMode := config.FileMode ||| ModeSetgid }
    else config
  let config :=
    if setUid then
      let config := { config with DirectoryMode := config.DirectoryMode ||| ModeSetuid }
      { config with FileMode := config.FileMode ||| ModeSetuid }
    else config
  config

/-- Lines 103-126: `main` up to the end of the initial walk; `none` is the
usage exit taken when no directory is given. -/
def main (dirMode fileMode : Int) (setGid setUid : Bool) (args : List String)
    (fuel : Nat) (w : World) : Option Outcome :=
  match args with
  | [] => none
  | root :: _ => some (Walk fuel root (getWalker (mainConfig dirMode fileMode setGid setUid)) w)

/-! ## Trees in the file system -/

/-- The part of an entry that decides where a walk goes. -/
def shape (e : Entry) : Bool × List String × Option Err :=
  (e.info.IsDir, e.names, e.readErr)

/-- Two file systems have the same entries with the same shapes; only
modes and the other faults may differ. -/
def SameShape (fs fs' : List (String × Entry)) : Prop :=
  ∀ p, (fs'.lookup p).map shape = (fs.lookup p).map shape

/-- Below `path` the file system is a tree of depth less than the first
argument in which every listed name exists and every directory can be
listed. -/
def readable : Nat → List (String × Entry) → String → Bool
  | 0, _, _ => false
  | n + 1, fs, path =>
    match fs.lookup path with
    | none => false
    | some e =>
      !e.info.IsDir ||
        (e.readErr.isNone && e.names.all (fun name => readable n fs (Join path name)))

/-- The directories of the tree below `path`, parents before children,
siblings in listing order. -/
def treeDirs : Nat → List (String × Entry) → String → List String
  | 0, _, _ => []
  | n + 1, fs, path =>
    match fs.lookup path with
    | none => []
    | some e =>
      if e.info.IsDir then
        path :: (e.names.map (fun name => treeDirs n fs (Join path name))).flatten
      else []

/-- Path `p` is an entry of the tree whose root is `root`: the root itself,
or a name listed in a directory of the tree. -/
inductive InTree (fs : List (String × Entry)) (root : String) : String → Prop where
  | root : InTree fs root root
  | child (dir name : String) (e : Entry) :
      InTree fs root dir → fs.lookup dir = some e → e.info.IsDir = true →
      name ∈ e.names → InTree fs root (Join dir name)

/-- The paths on which `watchDir` was invoked, in order: `watchDir` and
nothing else writes the line "Watching directory". -/
def watchCalls (trace : List Effect) : List String :=
  trace.filterMap (fun x =>
    match x with
    | .log (.watching p) => some p
    | _ => none)

/-- From `w` to `w1` the shape of the file system is kept, the trace has
only grown, and in the new part `watchDir` was invoked on exactly `calls`. -/
def Step (w w1 : World) (calls : List String) : Prop :=
  SameShape w.fs w1.fs ∧ ∃ t, w1.trace = w.trace ++ t ∧ watchCalls t = calls

/-- The calls of `os.Chmod` in a trace, in order. -/
def chmodCalls (trace : List Effect) : List (String × FileMode) :=
  trace.filterMap (fun x =>
    match x with
    | .chmod p m => some (p, m)
    | _ => none)

/-! ## Scenarios -/

/-- A regular file with the given inode number and mode and no faults. -/
def mkFile (ino : Nat) (mode : FileMode) : Entry :=
  ⟨⟨false, mode⟩, ino, none, [], none, none, none⟩

/-- A directory with the given inode number, permission bits and names and
no faults. -/
def mkDir (ino : Nat) (mode : FileMode) (names : List String) : Entry :=
  ⟨⟨true, ModeDir ||| mode⟩, ino, none, names, none, none, none⟩

/-- A symbolic link with the given inode number that points to `target`. -/
def mkSymlink (ino : Nat) (target : String) : Entry :=
  ⟨⟨false, ModeSymlink ||| 0o777⟩, ino, some target, [], none, none, none⟩

/-- The policy of the scenario of the specification: 0755 / 0644. -/
def policy : Config := ⟨0o755, 0o644⟩

/-- A root with two levels of nested directories; the innermost one holds
the setuid executable `/t/b/c/run`. -/
def worldSetuid : World :=
  ⟨[("/t", mkDir 1 0o700 ["b"]), ("/t/b", mkDir 2 0o700 ["c"]),
    ("/t/b/c", mkDir 3 0o700 ["run"]), ("/t/b/c/run", mkFile 4 (ModeSetuid ||| 0o755))],
    128, [], []⟩

/-- Directory `/t` lists `a`, `gone` and `z`, but `/t/gone` has been
removed. -/
def worldVanished : World :=
  ⟨[("/t", mkDir 1 0o755 ["a", "gone", "z"]), ("/t/a", mkFile 2 0o600),
    ("/t/z", mkFile 3 0o600)], 128, [], []⟩

/-- Directory `/secret` exists but no watcher can be bound to it. -/
def worldUnwatchable : World :=
  ⟨[("/secret", ⟨⟨true, ModeDir ||| 0o755⟩, 1, none, [], none, none, some .EACCES⟩)],
    128, [], []⟩

/-- Directory `/t` is watched; the empty directory `/t/d` has just been
created in it with mode 0700. -/
def worldNewDir : World :=
  ⟨[("/t", mkDir 1 0o755 ["d"]), ("/t/d", mkDir 2 0o700 [])], 128, ["/t"], []⟩

/-- The scenario of the specification before the initial walk. -/
def worldStart : World :=
  ⟨[("/t", mkDir 1 0o700 ["a", "b"]), ("/t/a", mkFile 2 0o644), ("/t/b", mkDir 3 0o700 [])],
    128, [], []⟩

/-- The scenario of the specification after the initial walk, with the file
`/t/b/c` just created with mode 0600. -/
def worldNewFile : World :=
  ⟨[("/t", mkDir 1 0o755 ["a", "b"]), ("/t/a", mkFile 2 0o644), ("/t/b", mkDir 3 0o755 ["c"]),
    ("/t/b/c", mkFile 4 0o600)], 128, ["/t", "/t/b"], []⟩

/-- The private file `/o` (mode 0600) lies outside the watched directory
`/t`, in which the symbolic link `/t/l` to `/o` has just been created. -/
def worldSymlink : World :=
  ⟨[("/o", mkFile 9 0o600), ("/t", mkDir 1 0o755 ["l"]), ("/t/l", mkSymlink 2 "/o")],
    128, ["/t"], []⟩

/-- The private file `/o` (mode 0600) lies outside the watched directory
`/t`, in which the hard link `/t/h` to `/o` has just been created. -/
def worldHardLink : World :=
  ⟨[("/o", mkFile 9 0o600), ("/t", mkDir 1 0o755 ["h"]), ("/t/h", mkFile 9 0o600)],
    128, ["/t"], []⟩

/-! ## The enforcer -/

/-- C1. With the flag `-setGid` the target mode of a file is 0644 plus
setgid. For a file that already has exactly that mode, `checkMode` still
writes its log line and calls `os.Chmod`: the comparison strips the setgid
bit from the observed mode only. -/
theorem checkMode_setgid_policy_chmods_again :
    (mainConfig 0o755 0o644 true false).FileMode = ModeSetgid ||| 0o644 ∧
    checkMode "/t/a" ⟨false, ModeSetgid ||| 0o644⟩ (mainConfig 0o755 0o644 true false)
        ⟨[("/t/a", mkFile 1 (ModeSetgid ||| 0o644))], 128, [], []⟩ =
      (none, ⟨[("/t/a", mkFile 1 (ModeSetgid ||| 0o644))], 128, [],
        [.log (.changing "/t/a" (ModeSetgid ||| 0o644) (ModeSetgid ||| 0o644)),
         .chmod "/t/a" (ModeSetgid ||| 0o644)]⟩) := by
  decide

/-- C2. A file with mode 0644 plus setuid under the policy 0755 / 0644
differs from its target in the setuid bit, and `checkMode` does nothing:
no log line, no call of `os.Chmod`, the world is unchanged. -/
theorem checkMode_keeps_stray_setuid :
    (ModeSetuid ||| 0o644 : FileMode) ≠ policy.FileMode ∧
    checkMode "/t/a" ⟨false, ModeSetuid ||| 0o644⟩ policy
        ⟨[("/t/a", mkFile 1 (ModeSetuid ||| 0o644))], 128, [], []⟩ =
      (none, ⟨[("/t/a", mkFile 1 (ModeSetuid ||| 0o644))], 128, [], []⟩) := by
  decide

/-- C7. `watchDir` on a directory to which no watcher can be bound: the call
`watcher.Watch` fails with EACCES, its result is dropped, `watchDir` returns
nil, and the event processor it started keeps running. -/
theorem watchDir_drops_bind_failure :
    (Watch "/secret" worldUnwatchable).1 = some Err.EACCES ∧
    (watchDir "/secret" policy worldUnwatchable).1 = none ∧
    (watchDir "/secret" policy worldUnwatchable).2.watchers = ["/secret"] ∧
    (watchDir "/secret" policy worldUnwatchable).2.trace =
      [.log (.watching "/secret"), .newWatcher, .spawn "/secret", .watch "/secret"] := by
  decide

/-! ## The initial walk -/

/-- C3. The initial walk of `main` with the default policy 0755 / 0755 over
a root with two levels of nested directories returns, and the setuid
executable `/t/b/c/run` still has mode 0755 plus setuid afterwards, which is
not the file mode of the policy: no `chmod` was issued for it. -/
theorem main_walk_leaves_setuid_file :
    ∃ w, main 0o755 0o755 false false ["/t"] 4 worldSetuid = some (.ok none w) ∧
      (w.fs.lookup "/t/b/c/run").map (fun e => e.info.Mode) = some (ModeSetuid ||| 0o755) ∧
      (ModeSetuid ||| 0o755 : FileMode) ≠ (mainConfig 0o755 0o755 false false).FileMode ∧
      chmodCalls w.trace = [("/t", 0o755), ("/t/b", 0o755), ("/t/b/c", 0o755)] ∧
      (w.fs.lookup "/t/b/c").map (fun e => e.info.Mode) = some (ModeDir ||| 0o755) := by
  refine ⟨_, rfl, ?_, ?_, ?_, ?_⟩ <;> decide

/-- C6. A walk over `/t`, whose entry `gone` was removed after the listing:
the callback receives a nil info, dereferences it and panics. No line about
`/t/gone` is logged and the next entry `/t/z` is never enforced. -/
theorem walk_panics_on_vanished_entry :
    getWalker policy "/t/gone" none (some Err.ENOENT) worldVanished = .panic worldVanished ∧
    ∃ w, Walk 2 "/t" (getWalker policy) worldVanished = .panic w ∧
      w.trace = [.lstat "/t", .log (.watching "/t"), .newWatcher, .spawn "/t", .watch "/t",
        .readDir "/t", .lstat "/t/a", .log (.changing "/t/a" 0o600 0o644),
        .chmod "/t/a" 0o644, .lstat "/t/gone"] ∧
      w.fs.lookup "/t/z" = some (mkFile 3 0o600) := by
  refine ⟨rfl, _, rfl, ?_, ?_⟩ <;> decide

/-! ## The event processor -/

/-- C10. The event processor of `/t` handles the creation of the empty
directory `/t/d`: `watchDir` runs twice on `/t/d`, once directly and once
from the walk that starts at `/t/d`, so two event processors run for that
one directory. -/
theorem handleMsg_new_directory_watched_twice :
    ∃ w, handleMsg 2 policy (.event "/t/d" true) worldNewDir = .ok none w ∧
      w.watchers = ["/t", "/t/d", "/t/d"] ∧
      watchCalls w.trace = ["/t/d", "/t/d"] ∧
      w.watchers.count "/t/d" = 2 := by
  refine ⟨_, rfl, ?_, ?_, ?_⟩ <;> decide

/-- C5, as stated, fails. Handling the creation of the directory `/t/d`
(mode 0700, policy 0755): the registration of the watch (line "Watching
directory", start of the processor) comes first, the `chmod` of `/t/d`
after it; the enforcement does not precede the registration. -/
theorem handleMsg_enforces_after_registering :
    ∃ w, handleMsg 2 policy (.event "/t/d" true) worldNewDir = .ok none w ∧
      w.trace = [.stat "/t/d",
        .log (.watching "/t/d"), .newWatcher, .spawn "/t/d", .watch "/t/d",
        .log (.changing "/t/d" (ModeDir ||| 0o700) 0o755), .chmod "/t/d" 0o755,
        .lstat "/t/d",
        .log (.watching "/t/d"), .newWatcher, .spawn "/t/d", .watch "/t/d",
        .readDir "/t/d"] ∧
      ¬ (w.trace.indexOf (Effect.chmod "/t/d" 0o755) <
          w.trace.indexOf (Effect.spawn "/t/d")) := by
  refine ⟨_, rfl, ?_, ?_⟩ <;> decide


/-! ## The policy -/

theorem testBit_ModeSetgid (i : Nat) : ModeSetgid.testBit i = decide (i = 22) := by
  unfold ModeSetgid
  rw [Nat.testBit_two_pow]
  by_cases h : i = 22 <;> simp [h, eq_comm]

theorem testBit_ModeSetuid (i : Nat) : ModeSetuid.testBit i = decide (i = 23) := by
  unfold ModeSetuid
  rw [Nat.testBit_two_pow]
  by_cases h : i = 23 <;> simp [h, eq_comm]

/-- C8. The policy built by `main`: each mode is the mode given on the
command line with the setgid bit (bit 22) or-ed in exactly when `-setGid` is
given and the setuid bit (bit 23) or-ed in exactly when `-setUid` is given;
every other bit is the bit of the given mode. With 0755, 0644 and both
flags, both modes hold setuid, setgid and the permission bits together. -/
theorem mainConfig_composition (dirMode fileMode : Int) (setGid setUid : Bool) :
    (mainConfig dirMode fileMode setGid setUid).DirectoryMode =
      (toFileMode dirMode ||| (if setGid then ModeSetgid else 0)) |||
        (if setUid then ModeSetuid else 0) ∧
    (mainConfig dirMode fileMode setGid setUid).FileMode =
      (toFileMode fileMode ||| (if setGid then ModeSetgid else 0)) |||
        (if setUid then ModeSetuid else 0) ∧
    (∀ i, (mainConfig dirMode fileMode setGid setUid).DirectoryMode.testBit i =
      ((toFileMode dirMode).testBit i || (setGid && decide (i = 22)) ||
        (setUid && decide (i = 23)))) ∧
    (∀ i, (mainConfig dirMode fileMode setGid setUid).FileMode.testBit i =
      ((toFileMode fileMode).testBit i || (setGid && decide (i = 22)) ||
        (setUid && decide (i = 23)))) ∧
    mainConfig 0o755 0o644 true true =
      ⟨ModeSetuid ||| ModeSetgid ||| 0o755, ModeSetuid ||| ModeSetgid ||| 0o644⟩ := by
  refine ⟨?_, ?_, ?_, ?_, by decide⟩
  · cases setGid <;> cases setUid <;> simp [mainConfig]
  · cases setGid <;> cases setUid <;> simp [mainConfig]
  · intro i
    cases setGid <;> cases setUid <;>
      simp [mainConfig, testBit_ModeSetgid, testBit_ModeSetuid]
  · intro i
    cases setGid <;> cases setUid <;>
      simp [mainConfig, testBit_ModeSetgid, testBit_ModeSetuid]


/-! ## Facts about the collaborators -/

theorem lookup_updateInode (ino : Nat) (f : Entry → Entry) (fs : List (String × Entry))
    (q : String) :
    (updateInode ino f fs).lookup q =
      (fs.lookup q).map (fun e => if e.ino = ino then f e else e) := by
  induction fs with
  | nil => simp [updateInode]
  | cons kv rest ih =>
    obtain ⟨k, e⟩ := kv
    by_cases hq : q = k
    · subst hq
      by_cases hk : e.ino = ino <;> simp [updateInode, hk, List.lookup_cons]
    · have hb : (q == k) = false := by simpa using hq
      by_cases hk : e.ino = ino <;> simp [updateInode, hk, List.lookup_cons, hb, ih]

theorem emit_fs (w : World) (x : Effect) : (w.emit x).fs = w.fs := rfl
theorem emit_watchers (w : World) (x : Effect) : (w.emit x).watchers = w.watchers := rfl
theorem emit_trace (w : World) (x : Effect) : (w.emit x).trace = w.trace ++ [x] := rfl
theorem emit_watcherLimit (w : World) (x : Effect) :
    (w.emit x).watcherLimit = w.watcherLimit := rfl


/-- C9, as stated, fails. In the watched directory `/t` a symbolic link
`/t/l` to the file `/o` (mode 0600, outside `/t`) is created: it stats as a
non-directory, the one `chmod` is issued on `/t/l`, and the mode of the
other path `/o` changes to 0644. The same happens to `/o` when `/t/h` is
created as a hard link to it. -/
theorem handleMsg_link_creation_changes_other_path :
    (∃ w1, handleMsg 0 policy (.event "/t/l" true) worldSymlink = .ok none w1 ∧
      w1.trace = [Effect.stat "/t/l", Effect.log (.changing "/t/l" 0o600 0o644),
        Effect.chmod "/t/l" 0o644] ∧
      worldSymlink.fs.lookup "/o" = some (mkFile 9 0o600) ∧
      w1.fs.lookup "/o" = some (mkFile 9 0o644) ∧
      w1.fs.lookup "/t/l" = some (mkSymlink 2 "/o")) ∧
    (∃ w1, handleMsg 0 policy (.event "/t/h" true) worldHardLink = .ok none w1 ∧
      w1.trace = [Effect.stat "/t/h", Effect.log (.changing "/t/h" 0o600 0o644),
        Effect.chmod "/t/h" 0o644] ∧
      worldHardLink.fs.lookup "/o" = some (mkFile 9 0o600) ∧
      w1.fs.lookup "/o" = some (mkFile 9 0o644) ∧
      w1.fs.lookup "/t/h" = some (mkFile 9 0o644)) := by
  constructor
  · refine ⟨_, rfl, ?_, ?_, ?_, ?_⟩ <;> decide
  · refine ⟨_, rfl, ?_, ?_, ?_, ?_⟩ <;> decide

/-- C9, amended. A creation event whose child `c` stats as a non-directory
(`e` is the entry `c` resolves to): the processor returns, and all it did
after the `stat` is the enforcer on `c`: when the permission bits differ
from the file mode of the policy, one log line and one `chmod` call on `c`
with that mode (and one more log line if the `chmod` fails), otherwise
nothing. No event processor is started and nothing is walked. Every path
that names another inode than `e` keeps its entry; a path that names the
inode of `e` keeps its entry or has its mode set to the file mode. -/
theorem handleMsg_file_creation (fuel : Nat) (config : Config) (c : String) (e : Entry)
    (w : World) (hstat : follow maxSymlinks w.fs c = .inr e) (hfile : e.info.IsDir = false) :
    ∃ w1, handleMsg fuel config (.event c true) w = .ok none w1 ∧
      w1.watchers = w.watchers ∧
      (∀ q x, w.fs.lookup q = some x → x.ino ≠ e.ino → w1.fs.lookup q = some x) ∧
      (∀ q, w1.fs.lookup q = w.fs.lookup q ∨
        ∃ x, w.fs.lookup q = some x ∧ x.ino = e.ino ∧
          w1.fs.lookup q = some (chmodEntry config.FileMode x)) ∧
      w1.trace = w.trace ++ Effect.stat c ::
        (if Perm e.info.Mode ≠ config.FileMode then
          Effect.log (.changing c e.info.Mode config.FileMode) ::
            Effect.chmod c config.FileMode ::
              (match e.chmodErr with
               | some err => [Effect.log (.couldNotFix c err)]
               | none => [])
        else []) := by
  by_cases hp : Perm e.info.Mode = config.FileMode
  · refine ⟨w.emit (.stat c), ?_, rfl, fun _ _ h _ => h, fun _ => Or.inl rfl, ?_⟩
    · simp [handleMsg, Stat, emit_fs, hstat, hfile, checkMode, hp, logErr]
    · simp [hp, emit_trace]
  · cases hc : e.chmodErr with
    | some err =>
      refine ⟨(((w.emit (.stat c)).emit (.log (.changing c e.info.Mode config.FileMode))).emit
          (.chmod c config.FileMode)).emit (.log (.couldNotFix c err)), ?_, rfl,
          fun _ _ h _ => h, fun _ => Or.inl rfl, ?_⟩
      · simp [handleMsg, Stat, emit_fs, hstat, hfile, checkMode, hp, Chmod, hc, logErr]
      · simp [hp, emit_trace]
    | none =>
      refine ⟨{ ((w.emit (.stat c)).emit (.log (.changing c e.info.Mode config.FileMode))).emit
          (.chmod c config.FileMode) with
          fs := updateInode e.ino (chmodEntry config.FileMode) w.fs }, ?_, rfl, ?_, ?_, ?_⟩
      · simp [handleMsg, Stat, emit_fs, hstat, hfile, checkMode, hp, Chmod, hc, logErr]
      · intro q x hq hx
        simp [lookup_updateInode, hq, hx]
      · intro q
        simp only [lookup_updateInode]
        cases hq : w.fs.lookup q with
        | none => exact Or.inl rfl
        | some x =>
          by_cases hx : x.ino = e.ino
          · exact Or.inr ⟨x, rfl, hx, by simp [hx]⟩
          · exact Or.inl (by simp [hx])
      · simp [hp, emit_trace]

/-- The scenario of the specification: creating the regular file `/t/b/c`
with mode 0600 under the policy 0755 / 0644 gives one `chmod` of `/t/b/c`
to 0644; the paths that name other inodes keep their entries. -/
theorem handleMsg_file_creation_witness :
    follow maxSymlinks worldNewFile.fs "/t/b/c" = .inr (mkFile 4 0o600) ∧
    ∃ w1, handleMsg 0 policy (.event "/t/b/c" true) worldNewFile = .ok none w1 ∧
      w1.watchers = ["/t", "/t/b"] ∧
      (∀ q x, worldNewFile.fs.lookup q = some x → x.ino ≠ 4 → w1.fs.lookup q = some x) ∧
      (∀ q, w1.fs.lookup q = worldNewFile.fs.lookup q ∨
        ∃ x, worldNewFile.fs.lookup q = some x ∧ x.ino = 4 ∧
          w1.fs.lookup q = some (chmodEntry 0o644 x)) ∧
      w1.trace = [Effect.stat "/t/b/c", Effect.log (.changing "/t/b/c" 0o600 0o644),
        Effect.chmod "/t/b/c" 0o644] :=
  ⟨by decide,
    handleMsg_file_creation 0 policy "/t/b/c" (mkFile 4 0o600) worldNewFile (by decide)
      (by decide)⟩

/-! ## What one visit of the walker does -/

theorem watchCalls_append (a b : List Effect) :
    watchCalls (a ++ b) = watchCalls a ++ watchCalls b := by
  simp [watchCalls, List.filterMap_append]

theorem sameShape_refl (fs : List (String × Entry)) : SameShape fs fs := fun _ => rfl

theorem sameShape_trans {a b c : List (String × Entry)} (h1 : SameShape a b)
    (h2 : SameShape b c) : SameShape a c := fun p => (h2 p).trans (h1 p)

theorem sameShape_chmod (ino : Nat) (mode : FileMode) (fs : List (String × Entry)) :
    SameShape fs (updateInode ino (chmodEntry mode) fs) := by
  intro p
  rw [lookup_updateInode]
  cases fs.lookup p with
  | none => rfl
  | some e =>
    by_cases he : e.ino = ino <;> simp [he, shape, chmodEntry]

theorem step_intro {w w1 : World} {calls : List String} (hs : SameShape w.fs w1.fs)
    (t : List Effect) (ht : w1.trace = w.trace ++ t) (hc : watchCalls t = calls) :
    Step w w1 calls := ⟨hs, t, ht, hc⟩

theorem step_calls {w w1 : World} {calls : List String} (h : Step w w1 calls) :
    watchCalls w1.trace = watchCalls w.trace ++ calls := by
  obtain ⟨_, t, ht, hc⟩ := h
  rw [ht, watchCalls_append, hc]

theorem step_same (w : World) : Step w w [] := step_intro (sameShape_refl _) [] (by simp) rfl

theorem step_trans {a b c : World} {k1 k2 : List String} (h1 : Step a b k1)
    (h2 : Step b c k2) : Step a c (k1 ++ k2) := by
  obtain ⟨s1, t1, ht1, hc1⟩ := h1
  obtain ⟨s2, t2, ht2, hc2⟩ := h2
  exact step_intro (sameShape_trans s1 s2) (t1 ++ t2) (by rw [ht2, ht1, List.append_assoc])
    (by rw [watchCalls_append, hc1, hc2])

theorem step_emit (w : World) (x : Effect) : Step w (w.emit x) (watchCalls [x]) :=
  step_intro (sameShape_refl _) [x] rfl rfl

theorem step_checkMode (path : String) (info : FileInfo) (config : Config) (w : World) :
    Step w (checkMode path info config w).2 [] := by
  unfold checkMode
  simp only
  generalize (if info.IsDir = true then config.DirectoryMode else config.FileMode) = target
  by_cases hp : Perm info.Mode = target
  · simpa [hp] using step_same w
  · unfold Chmod
    simp only [emit_fs, hp, ne_eq, not_false_eq_true, if_true]
    cases hl : follow maxSymlinks w.fs path with
    | inl err =>
      exact step_intro (sameShape_refl _) [.log (.changing path info.Mode target),
        .chmod path target] (by simp [emit_trace]) rfl
    | inr e =>
      dsimp only
      cases hc : e.chmodErr with
      | some err =>
        exact step_intro (sameShape_refl _) [.log (.changing path info.Mode target),
          .chmod path target] (by simp [emit_trace]) rfl
      | none =>
        exact step_intro (sameShape_chmod _ _ _) [.log (.changing path info.Mode target),
          .chmod path target] (by simp [emit_trace]) rfl

theorem Watch_snd (path : String) (w : World) : (Watch path w).2 = w.emit (.watch path) := by
  unfold Watch
  simp only
  cases follow maxSymlinks (w.emit (Effect.watch path)).fs path <;> rfl

theorem watchDir_eq (path : String) (config : Config) (w : World) :
    watchDir path config w =
      if w.watchers.length < w.watcherLimit then
        (none, (spawnProcessor path
          ((w.emit (.log (.watching path))).emit .newWatcher)).emit (.watch path))
      else (some Err.EMFILE, (w.emit (.log (.watching path))).emit .newWatcher) := by
  unfold watchDir NewWatcher
  simp only [emit_watchers, emit_watcherLimit]
  by_cases h : w.watchers.length < w.watcherLimit
  · simp only [h, if_true, Watch_snd]
  · simp only [h, if_false]

theorem step_watchDir (path : String) (config : Config) (w : World) :
    Step w (watchDir path config w).2 [path] := by
  rw [watchDir_eq]
  split
  · exact step_intro (sameShape_refl _)
      [.log (.watching path), .newWatcher, .spawn path, .watch path]
      (by simp [emit_trace, spawnProcessor]) rfl
  · exact step_intro (sameShape_refl _) [.log (.watching path), .newWatcher]
      (by simp [emit_trace]) rfl

theorem step_logErr (line : Err → LogLine) (hline : ∀ err, watchCalls [.log (line err)] = [])
    {w : World} {r : Option Err × World} {calls : List String} (h : Step w r.2 calls) :
    Step w (logErr line r) calls := by
  obtain ⟨err, w1⟩ := r
  cases err with
  | none => exact h
  | some err =>
    have := step_trans h (step_emit w1 (.log (line err)))
    rw [hline, List.append_nil] at this
    exact this

theorem getWalker_some (config : Config) (path : String) (info : FileInfo)
    (err : Option Err) (w : World) :
    ∃ w1, getWalker config path (some info) err w = .ok none w1 ∧
      Step w w1 (if info.IsDir then [path] else []) := by
  refine ⟨_, rfl, ?_⟩
  cases hd : info.IsDir with
  | false =>
    simp only [Bool.false_eq_true, if_false]
    exact step_logErr (.errFixing path) (fun _ => rfl) (step_checkMode path info config w)
  | true =>
    simp only [if_true]
    have h1 := step_logErr (.errStartingWatcher path) (fun _ => rfl)
      (step_watchDir path config w)
    have h2 := step_logErr (.errFixing path) (fun _ => rfl)
      (step_checkMode path info config (logErr (.errStartingWatcher path)
        (watchDir path config w)))
    simpa using step_trans h1 h2

/-! ## The walk over a readable tree -/

theorem shape_of_sameShape {fs fs1 : List (String × Entry)} (h : SameShape fs fs1)
    {p : String} {e : Entry} (hl : fs.lookup p = some e) :
    ∃ e1, fs1.lookup p = some e1 ∧ e1.info.IsDir = e.info.IsDir ∧ e1.names = e.names ∧
      e1.readErr = e.readErr := by
  have hp := h p
  rw [hl] at hp
  cases h1 : fs1.lookup p with
  | none => rw [h1] at hp; simp at hp
  | some e1 =>
    rw [h1] at hp
    simp only [Option.map_some', Option.some.injEq, shape, Prod.mk.injEq] at hp
    exact ⟨e1, rfl, hp.1, hp.2.1, hp.2.2⟩

theorem none_of_sameShape {fs fs1 : List (String × Entry)} (h : SameShape fs fs1)
    {p : String} (hl : fs.lookup p = none) : fs1.lookup p = none := by
  have hp := h p
  rw [hl] at hp
  cases h1 : fs1.lookup p with
  | none => rfl
  | some e1 => rw [h1] at hp; simp at hp

theorem readable_congr {fs fs1 : List (String × Entry)} (h : SameShape fs fs1) :
    ∀ (n : Nat) (p : String), readable n fs1 p = readable n fs p := by
  intro n
  induction n with
  | zero => intro p; rfl
  | succ n ih =>
    intro p
    unfold readable
    cases hl : fs.lookup p with
    | none => rw [none_of_sameShape h hl]
    | some e =>
      obtain ⟨e1, h1, hd, hn, hr⟩ := shape_of_sameShape h hl
      rw [h1]
      dsimp only
      rw [hd, hn, hr]
      simp only [ih]

theorem treeDirs_congr {fs fs1 : List (String × Entry)} (h : SameShape fs fs1) :
    ∀ (n : Nat) (p : String), treeDirs n fs1 p = treeDirs n fs p := by
  intro n
  induction n with
  | zero => intro p; rfl
  | succ n ih =>
    intro p
    unfold treeDirs
    cases hl : fs.lookup p with
    | none => rw [none_of_sameShape h hl]
    | some e =>
      obtain ⟨e1, h1, hd, hn, _⟩ := shape_of_sameShape h hl
      rw [h1]
      dsimp only
      rw [hd, hn]
      simp only [ih]

theorem lookup_of_readable {n : Nat} {fs : List (String × Entry)} {p : String}
    (h : readable n fs p = true) : ∃ e, fs.lookup p = some e := by
  cases n with
  | zero => simp [readable] at h
  | succ n =>
    unfold readable at h
    cases hl : fs.lookup p with
    | none => rw [hl] at h; simp at h
    | some e => exact ⟨e, rfl⟩

theorem walkNames_getWalker (config : Config) (n : Nat)
    (ih : ∀ (path : String) (info : FileInfo) (w : World) (e : Entry),
      w.fs.lookup path = some e → info.IsDir = e.info.IsDir → readable n w.fs path = true →
      ∃ w1, walk (getWalker config) n path info w = .ok none w1 ∧
        Step w w1 (treeDirs n w.fs path))
    (path : String) :
    ∀ (names : List String) (w : World),
      (∀ name ∈ names, readable n w.fs (Join path name) = true) →
      ∃ w1, walkNames (walk (getWalker config) n) (getWalker config) path names w =
          .ok none w1 ∧
        Step w w1 (names.map (fun name => treeDirs n w.fs (Join path name))).flatten := by
  intro names
  induction names with
  | nil =>
    intro w _
    exact ⟨w, rfl, step_same w⟩
  | cons name rest ihr =>
    intro w hall
    have hr : readable n w.fs (Join path name) = true := hall name (List.mem_cons_self _ _)
    obtain ⟨e, hl⟩ := lookup_of_readable hr
    obtain ⟨w2, hw2, hs2⟩ := ih (Join path name) e.info (w.emit (.lstat (Join path name))) e
      hl rfl hr
    have hrest : ∀ x ∈ rest, readable n w2.fs (Join path x) = true := by
      intro x hx
      rw [readable_congr hs2.1]
      exact hall x (List.mem_cons_of_mem _ hx)
    obtain ⟨w3, hw3, hs3⟩ := ihr w2 hrest
    refine ⟨w3, ?_, ?_⟩
    · unfold walkNames
      simp only [Lstat, emit_fs, hl, hw2]
      exact hw3
    · have h0 := step_emit w (.lstat (Join path name))
      have := step_trans (step_trans h0 hs2) hs3
      simp only [watchCalls, List.filterMap_cons, List.filterMap_nil, List.nil_append,
        emit_fs] at this
      simp only [List.map_cons, List.flatten_cons]
      have hc : (rest.map (fun x => treeDirs n w2.fs (Join path x))) =
          rest.map (fun x => treeDirs n w.fs (Join path x)) := by
        apply List.map_congr_left
        intro x _
        exact treeDirs_congr hs2.1 n _
      rw [hc] at this
      exact this

theorem walk_getWalker (config : Config) :
    ∀ (n : Nat) (path : String) (info : FileInfo) (w : World) (e : Entry),
      w.fs.lookup path = some e → info.IsDir = e.info.IsDir → readable n w.fs path = true →
      ∃ w1, walk (getWalker config) n path info w = .ok none w1 ∧
        Step w w1 (treeDirs n w.fs path) := by
  intro n
  induction n with
  | zero =>
    intro path info w e _ _ hr
    simp [readable] at hr
  | succ n ih =>
    intro path info w e hl hd hr
    obtain ⟨wa, hwa, hsa⟩ := getWalker_some config path info none w
    unfold readable at hr
    rw [hl] at hr
    cases hdir : e.info.IsDir with
    | false =>
      refine ⟨wa, ?_, ?_⟩
      · unfold walk
        simp only [hwa, hd, hdir]
        rfl
      · unfold treeDirs
        simpa [hl, hd, hdir] using hsa
    | true =>
      simp only [hdir, Bool.not_true, Bool.false_or, Bool.and_eq_true, Option.isNone_iff_eq_none,
        List.all_eq_true] at hr
      obtain ⟨ea, hla, hda, hna, hra⟩ := shape_of_sameShape hsa.1 hl
      have hkids : ∀ name ∈ e.names,
          readable n (wa.emit (.readDir path)).fs (Join path name) = true := by
        intro name hn
        rw [emit_fs, readable_congr hsa.1]
        exact hr.2 name hn
      obtain ⟨wb, hwb, hsb⟩ := walkNames_getWalker config n ih path e.names
        (wa.emit (.readDir path)) hkids
      refine ⟨wb, ?_, ?_⟩
      · unfold walk
        simp only [hwa, hd, hdir, readDirNames, emit_fs, hla, hra, hr.1, hna]
        exact hwb
      · have := step_trans (step_trans hsa (step_emit wa (.readDir path))) hsb
        simp only [hd, hdir, if_true, watchCalls, List.filterMap_cons, List.filterMap_nil,
          List.append_nil, emit_fs] at this
        have hc : (e.names.map (fun x => treeDirs n wa.fs (Join path x))) =
            e.names.map (fun x => treeDirs n w.fs (Join path x)) := by
          apply List.map_congr_left
          intro x _
          exact treeDirs_congr hsa.1 n _
        rw [hc] at this
        unfold treeDirs
        simpa [hl, hdir] using this

theorem Walk_getWalker (config : Config) (n : Nat) (root : String) (w : World)
    (hr : readable n w.fs root = true) :
    ∃ w1, Walk n root (getWalker config) w = .ok none w1 ∧
      Step w w1 (treeDirs n w.fs root) := by
  obtain ⟨e, hl⟩ := lookup_of_readable hr
  obtain ⟨w1, hw1, hs1⟩ := walk_getWalker config n root e.info (w.emit (.lstat root)) e
    hl rfl hr
  refine ⟨w1, ?_, ?_⟩
  · unfold Walk
    simp only [Lstat, emit_fs, hl]
    exact hw1
  · have := step_trans (step_emit w (.lstat root)) hs1
    simpa [watchCalls, emit_fs] using this

/-! ## The directories of a tree -/

theorem inTree_trans {fs : List (String × Entry)} {a b c : String} (h1 : InTree fs a b)
    (h2 : InTree fs b c) : InTree fs a c := by
  induction h2 with
  | root => exact h1
  | child dir name e _ hl hd hn ih => exact InTree.child dir name e ih hl hd hn

theorem inTree_head {fs : List (String × Entry)} {root p : String} (h : InTree fs root p) :
    p = root ∨ ∃ e name, fs.lookup root = some e ∧ e.info.IsDir = true ∧ name ∈ e.names ∧
      InTree fs (Join root name) p := by
  induction h with
  | root => exact Or.inl rfl
  | child dir name e _ hl hd hn ih =>
    right
    rcases ih with h0 | ⟨e0, name0, hl0, hd0, hn0, ht0⟩
    · subst h0
      exact ⟨e, name, hl, hd, hn, InTree.root⟩
    · exact ⟨e0, name0, hl0, hd0, hn0, InTree.child dir name e ht0 hl hd hn⟩

theorem inTree_of_mem_treeDirs (fs : List (String × Entry)) :
    ∀ (n : Nat) (root p : String), p ∈ treeDirs n fs root →
      InTree fs root p ∧ ∃ e, fs.lookup p = some e ∧ e.info.IsDir = true := by
  intro n
  induction n with
  | zero =>
    intro root p hp
    simp [treeDirs] at hp
  | succ n ih =>
    intro root p hp
    unfold treeDirs at hp
    cases hl : fs.lookup root with
    | none => rw [hl] at hp; simp at hp
    | some e =>
      rw [hl] at hp
      dsimp only at hp
      cases hd : e.info.IsDir with
      | false => rw [hd] at hp; simp at hp
      | true =>
        rw [hd] at hp
        simp only [if_true, List.mem_cons, List.mem_flatten, List.mem_map] at hp
        rcases hp with h0 | ⟨l, ⟨name, hn, hname⟩, hpl⟩
        · subst h0
          exact ⟨InTree.root, e, hl, hd⟩
        · subst hname
          obtain ⟨ht, hx⟩ := ih (Join root name) p hpl
          exact ⟨inTree_trans (InTree.child root name e InTree.root hl hd hn) ht, hx⟩

theorem mem_treeDirs_of_inTree (fs : List (String × Entry)) :
    ∀ (n : Nat) (root p : String), readable n fs root = true → InTree fs root p →
      (∃ e, fs.lookup p = some e ∧ e.info.IsDir = true) → p ∈ treeDirs n fs root := by
  intro n
  induction n with
  | zero =>
    intro root p hr
    simp [readable] at hr
  | succ n ih =>
    intro root p hr ht hx
    unfold readable at hr
    unfold treeDirs
    rcases inTree_head ht with h0 | ⟨e, name, hl, hd, hn, ht1⟩
    · subst h0
      obtain ⟨e, hl, hd⟩ := hx
      simp [hl, hd]
    · rw [hl] at hr
      simp only [hd, Bool.not_true, Bool.false_or, Bool.and_eq_true, List.all_eq_true] at hr
      have := ih (Join root name) p (hr.2 name hn) ht1 hx
      simp only [hl, hd, if_true, List.mem_cons, List.mem_flatten, List.mem_map]
      exact Or.inr ⟨_, ⟨name, hn, rfl⟩, this⟩

/-- C4. One visit of the walker invokes `watchDir` on the visited path
exactly when the entry is a directory, and returns nil. Hence over every
finite tree whose entries can all be read, the walk from the root returns
and the invocations of `watchDir` are exactly the directories of the tree,
parents first: a path is among them if and only if it is an entry of the
tree and a directory, so the root is one of them and no regular file is. -/
theorem walk_watches_every_directory (config : Config) :
    (∀ (path : String) (info : FileInfo) (err : Option Err) (w : World),
      ∃ w1, getWalker config path (some info) err w = .ok none w1 ∧
        watchCalls w1.trace = watchCalls w.trace ++ (if info.IsDir then [path] else [])) ∧
    (∀ (n : Nat) (root : String) (w : World), readable n w.fs root = true →
      ∃ w1, Walk n root (getWalker config) w = .ok none w1 ∧
        watchCalls w1.trace = watchCalls w.trace ++ treeDirs n w.fs root ∧
        ∀ p, p ∈ treeDirs n w.fs root ↔
          (InTree w.fs root p ∧ ∃ e, w.fs.lookup p = some e ∧ e.info.IsDir = true)) := by
  constructor
  · intro path info err w
    obtain ⟨w1, h1, hs⟩ := getWalker_some config path info err w
    exact ⟨w1, h1, step_calls hs⟩
  · intro n root w hr
    obtain ⟨w1, h1, hs⟩ := Walk_getWalker config n root w hr
    exact ⟨w1, h1, step_calls hs, fun p => ⟨inTree_of_mem_treeDirs w.fs n root p,
      fun h => mem_treeDirs_of_inTree w.fs n root p hr h.1 h.2⟩⟩

/-- The scenario of the specification: the initial walk over `/t`, which
holds the file `/t/a` and the directory `/t/b`, invokes `watchDir` on `/t`
and on `/t/b`. -/
theorem walk_watches_every_directory_witness :
    readable 2 worldStart.fs "/t" = true ∧
    ∃ w1, Walk 2 "/t" (getWalker policy) worldStart = .ok none w1 ∧
      watchCalls w1.trace = ["/t", "/t/b"] ∧
      ∀ p, p ∈ treeDirs 2 worldStart.fs "/t" ↔
        (InTree worldStart.fs "/t" p ∧
          ∃ e, worldStart.fs.lookup p = some e ∧ e.info.IsDir = true) :=
  ⟨by decide, (walk_watches_every_directory policy).2 2 "/t" worldStart (by decide)⟩

/-! ## The order of the reactions to a new directory -/

theorem logErr_watchDir_trace (line : Err → LogLine) (path : String) (config : Config)
    (w : World) :
    (logErr line (watchDir path config w)).fs = w.fs ∧
    (logErr line (watchDir path config w)).trace = w.trace ++
      (Effect.log (.watching path) :: Effect.newWatcher ::
        (if w.watchers.length < w.watcherLimit then [Effect.spawn path, Effect.watch path]
         else [Effect.log (line .EMFILE)])) := by
  rw [watchDir_eq]
  by_cases h : w.watchers.length < w.watcherLimit
  · simp [h, logErr, emit_trace, emit_fs, spawnProcessor]
  · simp [h, logErr, emit_trace, emit_fs]

theorem logErr_checkMode_trace (line : Err → LogLine) (path : String) (info : FileInfo)
    (config : Config) (w : World) (e : Entry)
    (hl : follow maxSymlinks w.fs path = .inr e) :
    SameShape w.fs (logErr line (checkMode path info config w)).fs ∧
    (logErr line (checkMode path info config w)).trace = w.trace ++
      (if Perm info.Mode ≠ (if info.IsDir then config.DirectoryMode else config.FileMode) then
        Effect.log (.changing path info.Mode
            (if info.IsDir then config.DirectoryMode else config.FileMode)) ::
          Effect.chmod path (if info.IsDir then config.DirectoryMode else config.FileMode) ::
            (match e.chmodErr with
             | some err => [Effect.log (line err)]
             | none => [])
      else []) := by
  unfold checkMode
  simp only
  generalize (if info.IsDir = true then config.DirectoryMode else config.FileMode) = target
  by_cases hp : Perm info.Mode = target
  · simp only [hp, ne_eq, not_true_eq_false, if_false, logErr, List.append_nil, and_true]
    exact sameShape_refl _
  · unfold Chmod
    simp only [emit_fs, hp, ne_eq, not_false_eq_true, if_true, hl]
    cases hc : e.chmodErr with
    | some err =>
      exact ⟨sameShape_refl _, by simp [logErr, emit_trace]⟩
    | none =>
      exact ⟨sameShape_chmod _ _ _, by simp [logErr, emit_trace]⟩

theorem Walk_trace (config : Config) (n : Nat) (root : String) (w : World)
    (hr : readable n w.fs root = true) :
    ∃ w1 rest, Walk n root (getWalker config) w = .ok none w1 ∧
      w1.trace = w.trace ++ Effect.lstat root :: rest := by
  obtain ⟨e, hl⟩ := lookup_of_readable hr
  obtain ⟨w1, hw1, _, t, ht, _⟩ := walk_getWalker config n root e.info (w.emit (.lstat root)) e
    hl rfl hr
  refine ⟨w1, t, ?_, ?_⟩
  · unfold Walk
    simp only [Lstat, emit_fs, hl]
    exact hw1
  · rw [ht, emit_trace]
    simp

/-- C5, amended. A creation event whose child `c` stats as a directory
below which the tree can be read: the processor returns, and after the
`stat` its effects are, in this order, (1) the registration of the watch of
`c` (the line "Watching directory", `NewWatcher`, then the start of the
processor and `Watch`, or the error line), (2) the enforcement of `c` (when
its permission bits differ from the directory mode: the log line and the
`chmod`, and the error line if the `chmod` fails), (3) the walk of `c`,
which starts with `Lstat c`. -/
theorem handleMsg_directory_order (n : Nat) (config : Config) (c : String) (e : Entry)
    (w : World) (hstat : follow maxSymlinks w.fs c = .inr e) (hdir : e.info.IsDir = true)
    (htree : readable n w.fs c = true) :
    ∃ w1 rest, handleMsg n config (.event c true) w = .ok none w1 ∧
      w1.trace = w.trace ++ Effect.stat c ::
        ((Effect.log (.watching c) :: Effect.newWatcher ::
          (if w.watchers.length < w.watcherLimit then [Effect.spawn c, Effect.watch c]
           else [Effect.log (.errStartingAWatcher .EMFILE)])) ++
        ((if Perm e.info.Mode ≠ config.DirectoryMode then
          Effect.log (.changing c e.info.Mode config.DirectoryMode) ::
            Effect.chmod c config.DirectoryMode ::
              (match e.chmodErr with
               | some err => [Effect.log (.couldNotFix c err)]
               | none => [])
          else []) ++
        (Effect.lstat c :: rest))) := by
  obtain ⟨hf2, ht2⟩ := logErr_watchDir_trace .errStartingAWatcher c config (w.emit (.stat c))
  have hl2 : follow maxSymlinks
      (logErr .errStartingAWatcher (watchDir c config (w.emit (.stat c)))).fs c = .inr e := by
    rw [hf2]; exact hstat
  obtain ⟨hs3, ht3⟩ := logErr_checkMode_trace (.couldNotFix c) c e.info config _ e hl2
  have hr3 : readable n (logErr (.couldNotFix c) (checkMode c e.info config
      (logErr .errStartingAWatcher (watchDir c config (w.emit (.stat c)))))).fs c = true := by
    rw [readable_congr hs3, hf2]
    exact htree
  obtain ⟨w4, rest, hw4, ht4⟩ := Walk_trace config n c _ hr3
  refine ⟨w4, rest, ?_, ?_⟩
  · unfold handleMsg
    simp only [Stat, emit_fs, hstat, hdir, if_true, hw4]
  · rw [ht4, ht3, ht2]
    simp only [hdir, if_true, emit_trace, emit_watchers, emit_watcherLimit, List.append_assoc,
      List.singleton_append, List.cons_append, List.nil_append]

/-- The new directory `/t/d` (mode 0700, policy 0755): watch, then `chmod`,
then the walk. -/
theorem handleMsg_directory_order_witness :
    ∃ w1 rest, handleMsg 1 policy (.event "/t/d" true) worldNewDir = .ok none w1 ∧
      w1.trace = [Effect.stat "/t/d",
        Effect.log (.watching "/t/d"), Effect.newWatcher, Effect.spawn "/t/d",
        Effect.watch "/t/d",
        Effect.log (.changing "/t/d" (ModeDir ||| 0o700) 0o755), Effect.chmod "/t/d" 0o755,
        Effect.lstat "/t/d"] ++ rest :=
  handleMsg_directory_order 1 policy "/t/d" (mkDir 2 0o700 []) worldNewDir (by decide)
    (by decide) (by decide)

end Permd
